import Mathlib

/-!
# Little Man Computer: assembler and execution engine, shallow embedding

This file embeds the assembler (`compile_assembly`) and execution engine
(`execute`) of the Little Man Computer implementation in `src/main.py`,
and proves the behavioural claims about them.

Modelling conventions:
* Python lists of ints become `List Int`; Python's indexing (which accepts
  negative indices `-len ≤ i < 0` meaning `len + i`, and raises `IndexError`
  otherwise) becomes `pyGet` / `pySet` returning `Option`.
* Python exceptions become `Except` / sum-like result types; the distinct
  exception classes (`CompileError`, `IndexError`, `KeyError`) are kept apart
  by distinct constructors.
* The global `RAM_SIZE = 100` of the source is kept as a parameter `cap`
  (the spec's `capacity`); every concrete theorem instantiates it at 100.
  `RAM_SIZE_DECLENGTH = math.ceil(math.log(RAM_SIZE, 10))` is embedded as the
  exact ceiling base-10 logarithm `decLength` (proved equal to `Nat.clog 10`).
* `int(input())` and `print` of the engine become an input list consumed by
  `INP` and an output list extended by `OUT`.  The engine additionally records
  the sequence of fetched addresses in a ghost field `fetches`; no source
  behaviour depends on it.
-/

/-- The whitespace characters of Python's `str.strip()` / `str.split()`. -/
def isPySpace (c : Char) : Bool :=
  c = ' ' || c = '\t' || c = '\n' || c = '\r' || c = Char.ofNat 11 || c = Char.ofNat 12

/-- Python `s.strip()` on a list of characters. -/
def pyStrip (cs : List Char) : List Char :=
  ((cs.dropWhile isPySpace).reverse.dropWhile isPySpace).reverse

/-- Python `s.split(sep)` for a one-character separator: `"".split(c) = [""]`,
separators delimit (possibly empty) fields. -/
def splitOnChar (sep : Char) : List Char → List (List Char)
  | [] => [[]]
  | c :: cs =>
    if c = sep then [] :: splitOnChar sep cs
    else
      match splitOnChar sep cs with
      | [] => [[c]]
      | g :: gs => (c :: g) :: gs

/-- Worker for `splitWS`: `cur` holds the current field, reversed. -/
def splitWSAux : List Char → List Char → List (List Char)
  | [], [] => []
  | [], cur => [cur.reverse]
  | c :: cs, cur =>
    if isPySpace c then
      if cur.isEmpty then splitWSAux cs []
      else cur.reverse :: splitWSAux cs []
    else splitWSAux cs (c :: cur)

/-- Python `s.split()` (no argument): split on runs of whitespace, dropping
empty fields. -/
def splitWS (cs : List Char) : List (List Char) := splitWSAux cs []

/-- Decimal digit test. -/
def isDigitChar (c : Char) : Bool := '0' ≤ c && c ≤ '9'

/-- Scan the tail of a Python integer literal: digits with single underscores
allowed between digits only. -/
def pyIntScan : List Char → Nat → Option Nat
  | [], acc => some acc
  | '_' :: c :: cs, acc =>
    if isDigitChar c then pyIntScan cs (acc * 10 + (c.toNat - 48)) else none
  | ['_'], _ => none
  | c :: cs, acc =>
    if isDigitChar c then pyIntScan cs (acc * 10 + (c.toNat - 48)) else none

/-- Parse an unsigned run of digits (with Python's underscore rule). -/
def pyIntNat : List Char → Option Nat
  | [] => none
  | c :: cs => if isDigitChar c then pyIntScan cs (c.toNat - 48) else none

/-- Python `int(s)` on a whitespace-free token: optional sign, then digits. -/
def pyInt (s : String) : Option Int :=
  match s.toList with
  | [] => none
  | '+' :: rest => (pyIntNat rest).map Int.ofNat
  | '-' :: rest => (pyIntNat rest).map (fun n => -(Int.ofNat n))
  | rest => (pyIntNat rest).map Int.ofNat

/-- Python list read `l[i]`: valid for `-len ≤ i < len`, negative indices
count from the end; out of range is an `IndexError` (`none`). -/
def pyGet (l : List Int) (i : Int) : Option Int :=
  if 0 ≤ i ∧ i < (l.length : Int) then l[i.toNat]?
  else if -(l.length : Int) ≤ i ∧ i < 0 then l[((l.length : Int) + i).toNat]?
  else none

/-- Python list write `l[i] = v`, same index rule as `pyGet`. -/
def pySet (l : List Int) (i : Int) (v : Int) : Option (List Int) :=
  if 0 ≤ i ∧ i < (l.length : Int) then some (l.set i.toNat v)
  else if -(l.length : Int) ≤ i ∧ i < 0 then some (l.set ((l.length : Int) + i).toNat v)
  else none

/-! ## The opcode table (`OPCODES` in the source) -/

/-- The keys of the `OPCODES` dict. -/
def OPCODES_keys : List String :=
  ["ADD", "SUB", "STA", "LDA", "BRA", "BRZ", "BRP", "INP", "OUT", "HLT", "DAT"]

/-- Membership test `s in OPCODES.keys()`. -/
def isOpcode (s : String) : Bool := OPCODES_keys.contains s

/-- The numeric value `OPCODES[s]`; `none` both for the `DAT` sentinel
(Python `None`) and for unknown mnemonics. -/
def opcodeNum (s : String) : Option Int :=
  if s = "ADD" then some 1
  else if s = "SUB" then some 2
  else if s = "STA" then some 3
  else if s = "LDA" then some 4
  else if s = "BRA" then some 5
  else if s = "BRZ" then some 6
  else if s = "BRP" then some 7
  else if s = "INP" then some 8
  else if s = "OUT" then some 9
  else if s = "HLT" then some 0
  else none

/-! ## Compilation data model -/

/-- A raw operand token: already-numeric, or a label reference kept as a
string (Python keeps `str` operands for later resolution). -/
inductive Operand where
  | num : Int → Operand
  | str : String → Operand
deriving DecidableEq

/-- `LabelledCommandTuple(label, opcode, operand)` of the source. -/
structure LabelledCommandTuple where
  label : String
  opcode : String
  operand : Operand
deriving DecidableEq

/-- `CommandTuple(opcode, operand)` of the source, post label resolution. -/
structure CommandTuple where
  opcode : String
  operand : Int
deriving DecidableEq

/-- The failures `compile_assembly` can raise.  The first four model the
source's `CompileError`s; `indexError` models the uncaught Python
`IndexError` when more records exist than memory words. -/
inductive CompErr where
  | noValidOpcode
  | tooManyParts
  | duplicateLabel
  | unknownLabel
  | indexError
deriving DecidableEq

/-! ## Tokenizer (steps 1–3 of `compile_assembly`) -/

/-- Step 3 for one line, given its whitespace-split parts: build the labelled
tuple, or fail.  `none` (for zero parts) appends no record, as in the source
where no branch of the `if` chain matches. -/
def parseLine (parts : List String) : Except CompErr (Option LabelledCommandTuple) :=
  match parts with
  | [] => .ok none
  | [p] =>
    if isOpcode p then .ok (some ⟨"", p, .num 0⟩)
    else .error .noValidOpcode
  | [first, second] =>
    if isOpcode first then
      match pyInt second with
      | some n => .ok (some ⟨"", first, .num n⟩)
      | none => .ok (some ⟨"", first, .str second⟩)
    else if isOpcode second then .ok (some ⟨first, second, .num 0⟩)
    else .error .noValidOpcode
  | [lab, opc, opnd] =>
    if isOpcode opc then
      match pyInt opnd with
      | some n => .ok (some ⟨lab, opc, .num n⟩)
      | none => .ok (some ⟨lab, opc, .str opnd⟩)
    else .error .noValidOpcode
  | _ => .error .tooManyParts

/-- Step 3 over all lines, stopping at the first error. -/
def parseLines : List (List String) → Except CompErr (List LabelledCommandTuple)
  | [] => .ok []
  | p :: rest =>
    match parseLine p with
    | .error e => .error e
    | .ok c? =>
      match parseLines rest with
      | .error e => .error e
      | .ok cs =>
        match c? with
        | some c => .ok (c :: cs)
        | none => .ok cs

/-- Step 2 for one line: drop everything from the first `#`, then strip. -/
def stripLine (l : List Char) : List Char :=
  pyStrip ((splitOnChar '#' l).headD [])

/-- Steps 1–2: split into lines, strip comments and whitespace, drop blanks. -/
def sourceLines (asm : String) : List (List Char) :=
  ((splitOnChar '\n' asm.toList).map stripLine).filter (fun l => !l.isEmpty)

/-- Steps 1–3 of `compile_assembly`: source text to labelled command tuples. -/
def tokenise (asm : String) : Except CompErr (List LabelledCommandTuple) :=
  parseLines ((sourceLines asm).map (fun l => (splitWS l).map String.mk))

/-! ## Label resolution (step 4 of `compile_assembly`) -/

/-- Lookup in the `labels_index` dict, modelled as an association list. -/
def dictLookup : List (String × Nat) → String → Option Nat
  | [], _ => none
  | (k, v) :: rest, s => if s = k then some v else dictLookup rest s

/-- Build the `labels_index` table: record `i` with a non-empty label maps
that label to `i`; a repeated label raises `CompileError`. -/
def buildLabelsGo (i : Nat) (acc : List (String × Nat)) :
    List LabelledCommandTuple → Except CompErr (List (String × Nat))
  | [] => .ok acc
  | c :: rest =>
    if c.label = "" then buildLabelsGo (i + 1) acc rest
    else if (dictLookup acc c.label).isSome then .error .duplicateLabel
    else buildLabelsGo (i + 1) (acc ++ [(c.label, i)]) rest

/-- The whole label table of a record list. -/
def buildLabels (cmds : List LabelledCommandTuple) : Except CompErr (List (String × Nat)) :=
  buildLabelsGo 0 [] cmds

/-- Resolve one record's operand against the label table. -/
def resolveOp (tbl : List (String × Nat)) (c : LabelledCommandTuple) :
    Except CompErr CommandTuple :=
  match c.operand with
  | .str s =>
    match dictLookup tbl s with
    | some n => .ok ⟨c.opcode, (n : Int)⟩
    | none => .error .unknownLabel
  | .num n => .ok ⟨c.opcode, n⟩

/-- Resolve all records, left to right, stopping at the first error. -/
def resolveOps (tbl : List (String × Nat)) :
    List LabelledCommandTuple → Except CompErr (List CommandTuple)
  | [] => .ok []
  | c :: rest =>
    match resolveOp tbl c with
    | .error e => .error e
    | .ok rc =>
      match resolveOps tbl rest with
      | .error e => .error e
      | .ok rcs => .ok (rc :: rcs)

/-! ## Encoding (step 5 of `compile_assembly`) -/

/-- `decLengthAux fuel n` computes `⌈log10 n⌉` by repeated ceiling division,
with enough fuel. -/
def decLengthAux : Nat → Nat → Nat
  | 0, _ => 0
  | fuel + 1, n => if n ≤ 1 then 0 else decLengthAux fuel ((n + 9) / 10) + 1

/-- `math.ceil(math.log(n, 10))` of the source (`RAM_SIZE_DECLENGTH`), as the
exact ceiling base-10 logarithm; see `decLength_eq_clog`. -/
def decLength (n : Nat) : Nat := decLengthAux n n

/-- The word value placed at a record's address in step 5 of the source:
`DAT` stores its operand raw, everything else packs
`numeric_opcode * multiplier + operand`. -/
def encodeCmd (mult : Int) (c : CommandTuple) : Int :=
  if c.opcode = "DAT" then c.operand
  else (opcodeNum c.opcode).getD 0 * mult + c.operand

/-- Step 5: write each record's word at index `i`, `i+1`, ...; `memory[i]`
with `i` past the end raises Python's `IndexError`. -/
def assembleStep5 (mult : Int) : Nat → List Int → List CommandTuple → Except CompErr (List Int)
  | _, mem, [] => .ok mem
  | i, mem, c :: rest =>
    if i < mem.length then assembleStep5 mult (i + 1) (mem.set i (encodeCmd mult c)) rest
    else .error .indexError

/-- Steps 1–4 of `compile_assembly`: the fully resolved command tuples. -/
def compileRecords (asm : String) : Except CompErr (List CommandTuple) :=
  match tokenise asm with
  | .error e => .error e
  | .ok lcmds =>
    match buildLabels lcmds with
    | .error e => .error e
    | .ok tbl => resolveOps tbl lcmds

/-- `compile_assembly` of the source, with the global `RAM_SIZE` of the
source generalised to a parameter `cap` (the source pins `cap = 100`). -/
def compile_assembly (cap : Nat) (asm : String) : Except CompErr (List Int) :=
  match compileRecords asm with
  | .error e => .error e
  | .ok cmds => assembleStep5 ((10 : Int) ^ decLength cap) 0 (List.replicate cap 0) cmds

/-- `RAM_SIZE` of the source. -/
def RAM_SIZE : Nat := 100

/-- `RAM_SIZE_DECLENGTH` of the source. -/
def RAM_SIZE_DECLENGTH : Nat := decLength RAM_SIZE

/-! ## Execution engine -/

/-- Runtime failures of `execute`: Python `IndexError` on a list access,
`KeyError` on `EXEC_DICT` lookup, and a failed `int(input())` read. -/
inductive RunErr where
  | indexError
  | keyError
  | inputError
deriving DecidableEq

/-- The `registers` dict created at the top of `execute`. -/
structure Registers where
  acc : Int
  cir : Int
  mdr : Int
  mar : Int
  pc : Int
deriving DecidableEq

/-- The machine state threaded through the engine: the registers and memory
of the source, the input/output collaborators as lists, and a ghost trace
`fetches` of the addresses read by the fetch phase. -/
structure Machine where
  registers : Registers
  memory : List Int
  inputs : List Int
  outputs : List Int
  fetches : List Int
deriving DecidableEq

/-- The machine at the top of `execute(memory, pc)`: all registers zero
except the program counter. -/
def initMachine (memory : List Int) (inputs : List Int) (pc : Int) : Machine :=
  { registers := { acc := 0, cir := 0, mdr := 0, mar := 0, pc := pc }
    memory := memory
    inputs := inputs
    outputs := []
    fetches := [] }

/-- `opcode = int(math.floor(cir / 10**d))` of the decode phase. -/
def decode_opcode (d : Nat) (w : Int) : Int := Int.fdiv w ((10 : Int) ^ d)

/-- `operand = cir - opcode * 10**d` of the decode phase. -/
def decode_operand (d : Nat) (w : Int) : Int := w - decode_opcode d w * (10 : Int) ^ d

/-- `exec_ADD`: read `memory[operand]` into MDR, add it to the accumulator. -/
def exec_ADD (operand : Int) (r : Registers) (memory : List Int) :
    Except RunErr (Registers × List Int) :=
  match pyGet memory operand with
  | none => .error .indexError
  | some v => .ok ({ r with mar := operand, mdr := v, acc := r.acc + v }, memory)

/-- `exec_SUB`: read `memory[operand]` into MDR, subtract it. -/
def exec_SUB (operand : Int) (r : Registers) (memory : List Int) :
    Except RunErr (Registers × List Int) :=
  match pyGet memory operand with
  | none => .error .indexError
  | some v => .ok ({ r with mar := operand, mdr := v, acc := r.acc - v }, memory)

/-- `exec_STA`: write the accumulator to `memory[operand]`. -/
def exec_STA (operand : Int) (r : Registers) (memory : List Int) :
    Except RunErr (Registers × List Int) :=
  match pySet memory operand r.acc with
  | none => .error .indexError
  | some mem' => .ok ({ r with mar := operand, mdr := r.acc }, mem')

/-- `exec_LDA`: load `memory[operand]` into the accumulator. -/
def exec_LDA (operand : Int) (r : Registers) (memory : List Int) :
    Except RunErr (Registers × List Int) :=
  match pyGet memory operand with
  | none => .error .indexError
  | some v => .ok ({ r with mar := operand, mdr := v, acc := v }, memory)

/-- `exec_BRA`: unconditional branch. -/
def exec_BRA (operand : Int) (r : Registers) (memory : List Int) :
    Except RunErr (Registers × List Int) :=
  .ok ({ r with pc := operand }, memory)

/-- `exec_BRZ`: branch when the accumulator is zero. -/
def exec_BRZ (operand : Int) (r : Registers) (memory : List Int) :
    Except RunErr (Registers × List Int) :=
  if r.acc = 0 then .ok ({ r with pc := operand }, memory) else .ok (r, memory)

/-- `exec_BRP`: branch when the accumulator is strictly positive. -/
def exec_BRP (operand : Int) (r : Registers) (memory : List Int) :
    Except RunErr (Registers × List Int) :=
  if r.acc > 0 then .ok ({ r with pc := operand }, memory) else .ok (r, memory)

/-- `exec_INP`: `acc = int(input())`, reading from the input list. -/
def exec_INP (m : Machine) : Except RunErr Machine :=
  match m.inputs with
  | [] => .error .inputError
  | v :: rest => .ok { m with registers := { m.registers with acc := v }, inputs := rest }

/-- `exec_OUT`: `print(acc)`, appending to the output list. -/
def exec_OUT (m : Machine) : Except RunErr Machine :=
  .ok { m with outputs := m.outputs ++ [m.registers.acc] }

/-- Lift a register/memory-level result back into the machine. -/
def liftRM (m : Machine) : Except RunErr (Registers × List Int) → Except RunErr Machine
  | .error e => .error e
  | .ok (r, mem) => .ok { m with registers := r, memory := mem }

/-- The `EXEC_DICT` dispatch: opcodes 1–9 run their handler, anything else
raises Python's `KeyError`. -/
def EXEC_DICT (opcode operand : Int) (m : Machine) : Except RunErr Machine :=
  if opcode = 1 then liftRM m (exec_ADD operand m.registers m.memory)
  else if opcode = 2 then liftRM m (exec_SUB operand m.registers m.memory)
  else if opcode = 3 then liftRM m (exec_STA operand m.registers m.memory)
  else if opcode = 4 then liftRM m (exec_LDA operand m.registers m.memory)
  else if opcode = 5 then liftRM m (exec_BRA operand m.registers m.memory)
  else if opcode = 6 then liftRM m (exec_BRZ operand m.registers m.memory)
  else if opcode = 7 then liftRM m (exec_BRP operand m.registers m.memory)
  else if opcode = 8 then exec_INP m
  else if opcode = 9 then exec_OUT m
  else .error .keyError

/-- Outcome of one iteration of the `while True` loop. -/
inductive StepResult where
  | next : Machine → StepResult
  | halted : Machine → StepResult
  | err : RunErr → StepResult
deriving DecidableEq

/-- One fetch–decode–execute cycle of `execute`, with digit budget `d`
(the source's global `RAM_SIZE_DECLENGTH`): fetch `memory[pc]` into MDR/CIR
recording MAR and incrementing the program counter first, decode, halt on
opcode 0, otherwise dispatch through `EXEC_DICT`. -/
def execStep (d : Nat) (m : Machine) : StepResult :=
  let fetchAddr := m.registers.pc
  match pyGet m.memory fetchAddr with
  | none => .err .indexError
  | some w =>
    let r1 : Registers :=
      { m.registers with mar := fetchAddr, pc := fetchAddr + 1, mdr := w, cir := w }
    let m1 : Machine := { m with registers := r1, fetches := m.fetches ++ [fetchAddr] }
    if decode_opcode d w = 0 then .halted m1
    else
      match EXEC_DICT (decode_opcode d w) (decode_operand d w) m1 with
      | .error e => .err e
      | .ok m2 => .next m2

/-- Outcome of running the loop with bounded fuel (the source loop is
unbounded; `outOfFuel` marks an unfinished run, never a source behaviour). -/
inductive RunResult where
  | halted : Machine → RunResult
  | err : RunErr → RunResult
  | outOfFuel : Machine → RunResult
deriving DecidableEq

/-- `execute`'s `while True` loop, stepped at most `fuel` times. -/
def executeLoop (d : Nat) : Nat → Machine → RunResult
  | 0, m => .outOfFuel m
  | fuel + 1, m =>
    match execStep d m with
    | .next m' => executeLoop d fuel m'
    | .halted m' => .halted m'
    | .err e => .err e

/-- `execute(memory, pc)` of the source: fresh registers, then the loop. -/
def execute (d : Nat) (fuel : Nat) (memory : List Int) (inputs : List Int) (pc : Int) :
    RunResult :=
  executeLoop d fuel (initMachine memory inputs pc)

/-- The adder program of §8 of the spec. -/
def adderSrc : String :=
  "INP\nSTA a\nINP\nSTA b\nLDA a\nADD b\nOUT\nHLT\na DAT\nb DAT"

/-! ## Basic facts about Python indexing and decoding -/

/-- A read at a negative in-range index silently resolves to `length + i`. -/
theorem pyGet_neg (l : List Int) (i : Int) (h1 : -(l.length : Int) ≤ i) (h2 : i < 0) :
    pyGet l i = l[((l.length : Int) + i).toNat]? := by
  unfold pyGet
  rw [if_neg (by omega), if_pos ⟨h1, h2⟩]

/-- A write at a negative in-range index silently resolves to `length + i`. -/
theorem pySet_neg (l : List Int) (i v : Int) (h1 : -(l.length : Int) ≤ i) (h2 : i < 0) :
    pySet l i v = some (l.set ((l.length : Int) + i).toNat v) := by
  unfold pySet
  rw [if_neg (by omega), if_pos ⟨h1, h2⟩]

/-- Any index in `[-len, len)` reads successfully. -/
theorem pyGet_total (l : List Int) (i : Int) (h1 : -(l.length : Int) ≤ i)
    (h2 : i < (l.length : Int)) : ∃ v, pyGet l i = some v := by
  unfold pyGet
  by_cases h0 : 0 ≤ i
  · rw [if_pos ⟨h0, h2⟩]
    exact ⟨_, List.getElem?_eq_getElem (by omega)⟩
  · rw [if_neg (by omega), if_pos ⟨h1, by omega⟩]
    exact ⟨_, List.getElem?_eq_getElem (by omega)⟩

/-- Any index in `[-len, len)` writes successfully. -/
theorem pySet_total (l : List Int) (i v : Int) (h1 : -(l.length : Int) ≤ i)
    (h2 : i < (l.length : Int)) : ∃ l', pySet l i v = some l' := by
  unfold pySet
  by_cases h0 : 0 ≤ i
  · rw [if_pos ⟨h0, h2⟩]; exact ⟨_, rfl⟩
  · rw [if_neg (by omega), if_pos ⟨h1, by omega⟩]; exact ⟨_, rfl⟩

/-- Indices below `-len` or at/above `len` raise `IndexError`. -/
theorem pyGet_none (l : List Int) (i : Int)
    (h : i < -(l.length : Int) ∨ (l.length : Int) ≤ i) : pyGet l i = none := by
  unfold pyGet
  rw [if_neg (by omega), if_neg (by omega)]

/-- The decode phase's operand is the remainder of the word by the
multiplier. -/
theorem decode_operand_eq_emod (d : Nat) (w : Int) :
    decode_operand d w = w % (10 : Int) ^ d := by
  unfold decode_operand decode_opcode
  rw [Int.fdiv_eq_ediv _ (by positivity), Int.emod_def]
  ring

/-- Decoded operands always lie in `[0, 10^d)`. -/
theorem decode_operand_range (d : Nat) (w : Int) :
    0 ≤ decode_operand d w ∧ decode_operand d w < (10 : Int) ^ d := by
  rw [decode_operand_eq_emod]
  exact ⟨Int.emod_nonneg w (by positivity), Int.emod_lt_of_pos w (by positivity)⟩

/-- `decLength` is the ceiling base-10 logarithm, the exact value of the
source's `math.ceil(math.log(n, 10))`. -/
theorem decLengthAux_eq_clog (fuel : Nat) :
    ∀ n : Nat, n ≤ fuel → decLengthAux fuel n = Nat.clog 10 n := by
  induction fuel with
  | zero =>
    intro n hn
    interval_cases n
    simp [decLengthAux, Nat.clog_of_right_le_one]
  | succ fuel ih =>
    intro n hn
    by_cases h1 : n ≤ 1
    · simp [decLengthAux, h1, Nat.clog_of_right_le_one h1]
    · have h2 : 2 ≤ n := by omega
      have hlt : (n + 9) / 10 < n := by omega
      rw [show decLengthAux (fuel + 1) n = decLengthAux fuel ((n + 9) / 10) + 1 by
            simp [decLengthAux, h1],
        ih _ (by omega), Nat.clog_of_two_le (by norm_num) h2]
      congr 2

/-- `decLength n = ⌈log₁₀ n⌉`. -/
theorem decLength_eq_clog (n : Nat) : decLength n = Nat.clog 10 n :=
  decLengthAux_eq_clog n n le_rfl

/-! ## Claim C1: the adder scenario of §8 -/

/-- The memory image `compile_assembly` produces for the adder program. -/
def adderMem : List Int :=
  [800, 308, 800, 309, 408, 109, 900, 0, 0, 0] ++ List.replicate 90 0

/-- The machine in which the adder run on inputs `[3, 4]` halts. -/
def adderFinal : Machine :=
  { registers := { acc := 7, cir := 0, mdr := 0, mar := 7, pc := 8 }
    memory := [800, 308, 800, 309, 408, 109, 900, 0, 3, 4] ++ List.replicate 90 0
    inputs := []
    outputs := [7]
    fetches := [0, 1, 2, 3, 4, 5, 6, 7] }

/-- **C1.** Compiling the adder source of §8 with capacity 100 and executing
it on the input sequence `[3, 4]` halts with output sequence exactly `[7]`,
after exactly 8 fetch cycles that read addresses 0 through 7, and the final
memory holds 3 at address 8 and 4 at address 9. -/
theorem C1_adder_scenario :
    compile_assembly 100 adderSrc = Except.ok adderMem ∧
    execute RAM_SIZE_DECLENGTH 50 adderMem [3, 4] 0 = RunResult.halted adderFinal ∧
    adderFinal.outputs = [7] ∧
    adderFinal.fetches = [0, 1, 2, 3, 4, 5, 6, 7] ∧
    adderFinal.memory[8]? = some 3 ∧
    adderFinal.memory[9]? = some 4 := by
  refine ⟨?_, ?_, rfl, rfl, ?_, ?_⟩ <;> rfl

/-! ## Claim C3: BRP branches strictly on positive, BRZ on zero -/

/-- **C3.** An executed `BRP` sets the program counter to its operand exactly
when the accumulator is strictly positive (an accumulator of 0 does not
branch), and an executed `BRZ` sets it exactly when the accumulator is zero;
otherwise the registers (hence the already-incremented program counter) are
unchanged. -/
theorem C3_BRP_BRZ_semantics (operand : Int) (r : Registers) (memory : List Int) :
    exec_BRP operand r memory =
      Except.ok ((if r.acc > 0 then { r with pc := operand } else r), memory) ∧
    exec_BRZ operand r memory =
      Except.ok ((if r.acc = 0 then { r with pc := operand } else r), memory) := by
  constructor
  · unfold exec_BRP
    split <;> rename_i h <;> simp [h]
  · unfold exec_BRZ
    split <;> rename_i h <;> simp [h]

/-! ## Claim C9: negative operands silently index from the end -/

/-- **C9.** A memory-addressing instruction whose operand `o` is negative
with `-len ≤ o < 0` raises no error: `ADD`, `SUB` and `LDA` silently read
`memory[len + o]`, and `STA` silently writes `memory[len + o]`
(Python negative indexing). -/
theorem C9_negative_operand (o : Int) (r : Registers) (mem : List Int)
    (h1 : -(mem.length : Int) ≤ o) (h2 : o < 0) :
    pyGet mem o = mem[((mem.length : Int) + o).toNat]? ∧
    (∃ v, pyGet mem o = some v ∧
      exec_LDA o r mem = Except.ok ({ r with mar := o, mdr := v, acc := v }, mem) ∧
      exec_ADD o r mem = Except.ok ({ r with mar := o, mdr := v, acc := r.acc + v }, mem) ∧
      exec_SUB o r mem = Except.ok ({ r with mar := o, mdr := v, acc := r.acc - v }, mem)) ∧
    exec_STA o r mem = Except.ok ({ r with mar := o, mdr := r.acc },
      mem.set ((mem.length : Int) + o).toNat r.acc) := by
  have hg := pyGet_neg mem o h1 h2
  obtain ⟨v, hv⟩ : ∃ v, mem[((mem.length : Int) + o).toNat]? = some v :=
    ⟨_, List.getElem?_eq_getElem (by omega)⟩
  refine ⟨hg, ⟨v, by rw [hg, hv], ?_, ?_, ?_⟩, ?_⟩
  · unfold exec_LDA; rw [hg, hv]
  · unfold exec_ADD; rw [hg, hv]
  · unfold exec_SUB; rw [hg, hv]
  · unfold exec_STA; rw [pySet_neg mem o r.acc h1 h2]

/-- All-zero registers, as `execute` creates them with starting program
counter 0. -/
def regs0 : Registers := { acc := 0, cir := 0, mdr := 0, mar := 0, pc := 0 }

/-- Witness for C9 at the concrete memory `[10, 20, 30]` and operand `-1`. -/
theorem C9_negative_operand_witness :
    pyGet [10, 20, 30] (-1) = ([10, 20, 30] : List Int)[2]? ∧
    (∃ v, pyGet [10, 20, 30] (-1) = some v ∧
      exec_LDA (-1) regs0 [10, 20, 30] =
        Except.ok ({ regs0 with mar := -1, mdr := v, acc := v }, [10, 20, 30]) ∧
      exec_ADD (-1) regs0 [10, 20, 30] =
        Except.ok ({ regs0 with mar := -1, mdr := v, acc := regs0.acc + v }, [10, 20, 30]) ∧
      exec_SUB (-1) regs0 [10, 20, 30] =
        Except.ok ({ regs0 with mar := -1, mdr := v, acc := regs0.acc - v }, [10, 20, 30])) ∧
    exec_STA (-1) regs0 [10, 20, 30] =
      Except.ok ({ regs0 with mar := -1, mdr := regs0.acc },
        ([10, 20, 30] : List Int).set 2 regs0.acc) :=
  C9_negative_operand (-1) regs0 [10, 20, 30] (by decide) (by decide)

/-! ## Claim C2: which addresses fault at runtime -/

/-- With an operand inside `[0, len)`, no handler of `EXEC_DICT` can raise
`IndexError`. -/
theorem EXEC_DICT_no_index (op opr : Int) (m : Machine)
    (hopr0 : 0 ≤ opr) (hopr1 : opr < (m.memory.length : Int)) :
    EXEC_DICT op opr m ≠ Except.error RunErr.indexError := by
  have hget : ∃ v, pyGet m.memory opr = some v := pyGet_total _ _ (by omega) hopr1
  have hset : ∃ l', pySet m.memory opr m.registers.acc = some l' :=
    pySet_total _ _ _ (by omega) hopr1
  obtain ⟨v, hv⟩ := hget
  obtain ⟨l', hl⟩ := hset
  unfold EXEC_DICT
  split_ifs
  · unfold exec_ADD; rw [hv]; simp [liftRM]
  · unfold exec_SUB; rw [hv]; simp [liftRM]
  · unfold exec_STA; rw [hl]; simp [liftRM]
  · unfold exec_LDA; rw [hv]; simp [liftRM]
  · unfold exec_BRA; simp [liftRM]
  · unfold exec_BRZ; split <;> simp [liftRM]
  · unfold exec_BRP; split <;> simp [liftRM]
  · unfold exec_INP; cases m.inputs <;> simp
  · unfold exec_OUT; simp
  · simp

/-- The machine left behind by the silent fetch at address `-1` (the engine
then halts normally on the fetched zero word). -/
def negPCHalted : Machine :=
  { registers := { acc := 0, cir := 0, mdr := 0, mar := -1, pc := 0 }
    memory := List.replicate 100 0
    inputs := []
    outputs := []
    fetches := [-1] }

/-- **C2, counterexample.** Starting `execute` on a 100-word memory with
program counter `-1` uses the out-of-range address `-1` as the fetch address
yet raises no error: the step silently reads `memory[99]` (which is 0) and
halts normally.  This refutes the claim that every address outside
`[0, capacity)` faults. -/
theorem C2_counterexample :
    (initMachine (List.replicate 100 0) [] (-1)).registers.pc = -1 ∧
    execStep RAM_SIZE_DECLENGTH (initMachine (List.replicate 100 0) [] (-1)) =
      StepResult.halted negPCHalted := ⟨rfl, rfl⟩

/-- **C2, amended.** At capacity 100 a fetch-decode-execute step raises
`IndexError` exactly when the fetch address (the program counter) lies
outside `[-100, 100)`; addresses in `[-100, 0)` are silently accepted
(Python negative indexing, claim C9), and decoded instruction operands always
lie in `[0, 100)`, so they never fault. -/
theorem C2_index_error_iff (m : Machine) (hlen : m.memory.length = 100) :
    execStep RAM_SIZE_DECLENGTH m = StepResult.err RunErr.indexError ↔
      (m.registers.pc < -100 ∨ 100 ≤ m.registers.pc) := by
  have hd : RAM_SIZE_DECLENGTH = 2 := rfl
  constructor
  · intro h
    by_contra hc
    push_neg at hc
    obtain ⟨w, hw⟩ : ∃ w, pyGet m.memory m.registers.pc = some w :=
      pyGet_total _ _ (by omega) (by omega)
    have hrange := decode_operand_range RAM_SIZE_DECLENGTH w
    rw [hd] at hrange
    simp only [execStep, hw] at h
    split at h
    · exact StepResult.noConfusion h
    · split at h
      · rename_i e hEX
        injection h with h1
        subst h1
        exact EXEC_DICT_no_index _ _ _ hrange.1
          (by simp only [Machine.mk.injEq]; norm_num [hlen]; omega) hEX
      · exact StepResult.noConfusion h
  · intro h
    have hnone : pyGet m.memory m.registers.pc = none := pyGet_none _ _ (by omega)
    simp only [execStep, hnone]

/-- Witness for the amended C2 at program counter 100 on a 100-word memory:
the fetch faults. -/
theorem C2_index_error_iff_witness :
    execStep RAM_SIZE_DECLENGTH (initMachine (List.replicate 100 0) [] 100) =
        StepResult.err RunErr.indexError ↔
      ((initMachine (List.replicate 100 0) [] 100).registers.pc < -100 ∨
        100 ≤ (initMachine (List.replicate 100 0) [] 100).registers.pc) :=
  C2_index_error_iff (initMachine (List.replicate 100 0) [] 100) (by simp [initMachine])

/-! ## Claims C8 and C10: program-counter and memory footprint of execute -/

/-- How each successfully dispatched handler treats the program counter and
the fetch trace: only `BRA` and taken `BRZ`/`BRP` change the program counter,
and no handler touches the trace. -/
theorem EXEC_DICT_pc (op opr : Int) (m m2 : Machine)
    (h : EXEC_DICT op opr m = Except.ok m2) :
    m2.fetches = m.fetches ∧
    (op = 5 → m2.registers.pc = opr) ∧
    (op = 6 → m2.registers.pc = (if m.registers.acc = 0 then opr else m.registers.pc)) ∧
    (op = 7 → m2.registers.pc = (if m.registers.acc > 0 then opr else m.registers.pc)) ∧
    (op ≠ 5 → op ≠ 6 → op ≠ 7 → m2.registers.pc = m.registers.pc) := by
  unfold EXEC_DICT at h
  split_ifs at h with h1 h2 h3 h4 h5 h6 h7 h8 h9
  · subst h1
    unfold exec_ADD at h
    cases hget : pyGet m.memory opr <;> rw [hget] at h <;> simp [liftRM] at h
    subst h
    exact ⟨rfl, fun hh => absurd hh (by decide), fun hh => absurd hh (by decide),
      fun hh => absurd hh (by decide), fun _ _ _ => rfl⟩
  · subst h2
    unfold exec_SUB at h
    cases hget : pyGet m.memory opr <;> rw [hget] at h <;> simp [liftRM] at h
    subst h
    exact ⟨rfl, fun hh => absurd hh (by decide), fun hh => absurd hh (by decide),
      fun hh => absurd hh (by decide), fun _ _ _ => rfl⟩
  · subst h3
    unfold exec_STA at h
    cases hset : pySet m.memory opr m.registers.acc <;> rw [hset] at h <;>
      simp [liftRM] at h
    subst h
    exact ⟨rfl, fun hh => absurd hh (by decide), fun hh => absurd hh (by decide),
      fun hh => absurd hh (by decide), fun _ _ _ => rfl⟩
  · subst h4
    unfold exec_LDA at h
    cases hget : pyGet m.memory opr <;> rw [hget] at h <;> simp [liftRM] at h
    subst h
    exact ⟨rfl, fun hh => absurd hh (by decide), fun hh => absurd hh (by decide),
      fun hh => absurd hh (by decide), fun _ _ _ => rfl⟩
  · subst h5
    unfold exec_BRA at h
    simp [liftRM] at h
    subst h
    exact ⟨rfl, fun _ => rfl, fun hh => absurd hh (by decide),
      fun hh => absurd hh (by decide), fun hh _ _ => absurd rfl hh⟩
  · subst h6
    unfold exec_BRZ at h
    split at h <;> rename_i ha <;> simp [liftRM] at h <;> subst h
    · exact ⟨rfl, fun hh => absurd hh (by decide), fun _ => by simp [ha],
        fun hh => absurd hh (by decide), fun _ hh _ => absurd rfl hh⟩
    · exact ⟨rfl, fun hh => absurd hh (by decide), fun _ => by simp [ha],
        fun hh => absurd hh (by decide), fun _ hh _ => absurd rfl hh⟩
  · subst h7
    unfold exec_BRP at h
    split at h <;> rename_i ha <;> simp [liftRM] at h <;> subst h
    · exact ⟨rfl, fun hh => absurd hh (by decide), fun hh => absurd hh (by decide),
        fun _ => by simp [ha], fun _ _ hh => absurd rfl hh⟩
    · exact ⟨rfl, fun hh => absurd hh (by decide), fun hh => absurd hh (by decide),
        fun _ => by simp [ha], fun _ _ hh => absurd rfl hh⟩
  · subst h8
    unfold exec_INP at h
    cases hin : m.inputs <;> rw [hin] at h <;> simp at h
    subst h
    exact ⟨rfl, fun hh => absurd hh (by decide), fun hh => absurd hh (by decide),
      fun hh => absurd hh (by decide), fun _ _ _ => rfl⟩
  · subst h9
    unfold exec_OUT at h
    simp at h
    subst h
    exact ⟨rfl, fun hh => absurd hh (by decide), fun hh => absurd hh (by decide),
      fun hh => absurd hh (by decide), fun _ _ _ => rfl⟩

/-- **C8.** A fetch cycle reads the word at the current program counter (the
trace gains exactly that address) and increments the program counter before
decode/execute: a branch (`BRA`, or a taken `BRZ`/`BRP`) leaves the program
counter exactly at its target — it is not re-incremented — so the next fetch
reads the branch target, while every non-branching instruction leaves the
program counter at its already-incremented value. -/
theorem C8_fetch_before_decode (d : Nat) (m m2 : Machine) (w : Int)
    (hw : pyGet m.memory m.registers.pc = some w)
    (h : execStep d m = StepResult.next m2) :
    m2.fetches = m.fetches ++ [m.registers.pc] ∧
    (decode_opcode d w = 5 → m2.registers.pc = decode_operand d w) ∧
    (decode_opcode d w = 6 → m2.registers.pc =
      (if m.registers.acc = 0 then decode_operand d w else m.registers.pc + 1)) ∧
    (decode_opcode d w = 7 → m2.registers.pc =
      (if m.registers.acc > 0 then decode_operand d w else m.registers.pc + 1)) ∧
    (decode_opcode d w ≠ 5 → decode_opcode d w ≠ 6 → decode_opcode d w ≠ 7 →
      m2.registers.pc = m.registers.pc + 1) := by
  simp only [execStep, hw] at h
  split at h
  · exact StepResult.noConfusion h
  · split at h
    · exact StepResult.noConfusion h
    · rename_i m3 hEX
      injection h with h1
      subst h1
      obtain ⟨hf, h5, h6, h7, helse⟩ := EXEC_DICT_pc _ _ _ _ hEX
      exact ⟨hf, h5, h6, h7, helse⟩

/-- A one-instruction machine about to execute `BRA 0` (word 500). -/
def braMachine : Machine :=
  { registers := regs0, memory := [500], inputs := [], outputs := [], fetches := [] }

/-- `braMachine` after one step: the branch target 0 is in the program
counter, un-re-incremented. -/
def braMachineAfter : Machine :=
  { registers := { acc := 0, cir := 500, mdr := 500, mar := 0, pc := 0 }
    memory := [500], inputs := [], outputs := [], fetches := [0] }

/-- Witness for C8 on the concrete `BRA 0` machine. -/
theorem C8_fetch_before_decode_witness :
    braMachineAfter.fetches = braMachine.fetches ++ [braMachine.registers.pc] ∧
    (decode_opcode 2 500 = 5 → braMachineAfter.registers.pc = decode_operand 2 500) ∧
    (decode_opcode 2 500 = 6 → braMachineAfter.registers.pc =
      (if braMachine.registers.acc = 0 then decode_operand 2 500
        else braMachine.registers.pc + 1)) ∧
    (decode_opcode 2 500 = 7 → braMachineAfter.registers.pc =
      (if braMachine.registers.acc > 0 then decode_operand 2 500
        else braMachine.registers.pc + 1)) ∧
    (decode_opcode 2 500 ≠ 5 → decode_opcode 2 500 ≠ 6 → decode_opcode 2 500 ≠ 7 →
      braMachineAfter.registers.pc = braMachine.registers.pc + 1) :=
  C8_fetch_before_decode 2 braMachine braMachineAfter 500 (by decide) (by decide)

/-- **C10.** `STA` is the only instruction whose execute step writes memory:
a successfully dispatched instruction with any opcode other than 3 leaves
every memory word unchanged, and an executed `STA` with in-range operand `o`
keeps the memory length and changes no word other than the one at index `o`. -/
theorem C10_STA_only_store (op opr : Int) (m m2 : Machine)
    (h : EXEC_DICT op opr m = Except.ok m2) :
    (op ≠ 3 → m2.memory = m.memory) ∧
    (op = 3 → 0 ≤ opr → opr < (m.memory.length : Int) →
      m2.memory.length = m.memory.length ∧
      ∀ j : Nat, (j : Int) ≠ opr → m2.memory[j]? = m.memory[j]?) := by
  unfold EXEC_DICT at h
  split_ifs at h with h1 h2 h3 h4 h5 h6 h7 h8 h9
  · subst h1
    unfold exec_ADD at h
    cases hget : pyGet m.memory opr <;> rw [hget] at h <;> simp [liftRM] at h
    subst h
    exact ⟨fun _ => rfl, fun hh => absurd hh (by decide)⟩
  · subst h2
    unfold exec_SUB at h
    cases hget : pyGet m.memory opr <;> rw [hget] at h <;> simp [liftRM] at h
    subst h
    exact ⟨fun _ => rfl, fun hh => absurd hh (by decide)⟩
  · subst h3
    unfold exec_STA at h
    cases hset : pySet m.memory opr m.registers.acc <;> rw [hset] at h <;>
      simp [liftRM] at h
    subst h
    refine ⟨fun hh => absurd rfl hh, fun _ h0 hlt => ?_⟩
    unfold pySet at hset
    rw [if_pos ⟨h0, hlt⟩] at hset
    injection hset with hset
    subst hset
    refine ⟨by simp, fun j hj => ?_⟩
    have : opr.toNat ≠ j := by omega
    simp [List.getElem?_set_ne this]
  · subst h4
    unfold exec_LDA at h
    cases hget : pyGet m.memory opr <;> rw [hget] at h <;> simp [liftRM] at h
    subst h
    exact ⟨fun _ => rfl, fun hh => absurd hh (by decide)⟩
  · subst h5
    unfold exec_BRA at h
    simp [liftRM] at h
    subst h
    exact ⟨fun _ => rfl, fun hh => absurd hh (by decide)⟩
  · subst h6
    unfold exec_BRZ at h
    split at h <;> simp [liftRM] at h <;> subst h
    · exact ⟨fun _ => rfl, fun hh => absurd hh (by decide)⟩
    · exact ⟨fun _ => rfl, fun hh => absurd hh (by decide)⟩
  · subst h7
    unfold exec_BRP at h
    split at h <;> simp [liftRM] at h <;> subst h
    · exact ⟨fun _ => rfl, fun hh => absurd hh (by decide)⟩
    · exact ⟨fun _ => rfl, fun hh => absurd hh (by decide)⟩
  · subst h8
    unfold exec_INP at h
    cases hin : m.inputs <;> rw [hin] at h <;> simp at h
    subst h
    exact ⟨fun _ => rfl, fun hh => absurd hh (by decide)⟩
  · subst h9
    unfold exec_OUT at h
    simp at h
    subst h
    exact ⟨fun _ => rfl, fun hh => absurd hh (by decide)⟩

/-- Witness for C10: an `OUT` step (opcode 9) on `braMachine` writes no
memory. -/
theorem C10_STA_only_store_witness :
    ((9 : Int) ≠ 3 →
      ({ braMachine with outputs := [0] } : Machine).memory = braMachine.memory) ∧
    ((9 : Int) = 3 → 0 ≤ (0 : Int) → (0 : Int) < (braMachine.memory.length : Int) →
      ({ braMachine with outputs := [0] } : Machine).memory.length =
          braMachine.memory.length ∧
      ∀ j : Nat, (j : Int) ≠ (0 : Int) →
        ({ braMachine with outputs := [0] } : Machine).memory[j]? =
          braMachine.memory[j]?) :=
  C10_STA_only_store 9 0 braMachine { braMachine with outputs := [0] } rfl

/-! ## Claims C4 and C5: the encoding step -/

/-- What a successful step-5 run guarantees: enough room, unchanged length,
untouched words outside the written window, and the encoded word of record
`k` at address `i + k`. -/
theorem assembleStep5_sound (mult : Int) (cmds : List CommandTuple) :
    ∀ (i : Nat) (mem mem' : List Int),
      assembleStep5 mult i mem cmds = Except.ok mem' →
      cmds.length ≤ mem.length - i ∧
      mem'.length = mem.length ∧
      (∀ j : Nat, (j < i ∨ i + cmds.length ≤ j) → mem'[j]? = mem[j]?) ∧
      (∀ (k : Nat) (hk : k < cmds.length),
        mem'[i + k]? = some (encodeCmd mult cmds[k])) := by
  induction cmds with
  | nil =>
    intro i mem mem' h
    injection h with h
    subst h
    exact ⟨Nat.zero_le _, rfl, fun j _ => rfl, fun k hk => absurd hk (by simp)⟩
  | cons c rest ih =>
    intro i mem mem' h
    unfold assembleStep5 at h
    split at h
    · rename_i hi
      obtain ⟨hle, hlen, hframe, hval⟩ := ih (i + 1) _ _ h
      rw [List.length_set] at hle hlen
      refine ⟨by simp only [List.length_cons]; omega, hlen, fun j hj => ?_, fun k hk => ?_⟩
      · rw [hframe j (by simp only [List.length_cons] at hj; omega)]
        exact List.getElem?_set_ne (by simp only [List.length_cons] at hj; omega)
      · cases k with
        | zero =>
          rw [Nat.add_zero, hframe i (Or.inl (by omega)), List.getElem?_set_self hi]
          simp
        | succ k' =>
          have hv := hval k' (by simp only [List.length_cons] at hk; omega)
          rw [show i + (k' + 1) = (i + 1) + k' by omega, hv]
          simp
    · exact absurd h (by simp)

/-- Step 5 succeeds whenever the records fit in memory. -/
theorem assembleStep5_total (mult : Int) (cmds : List CommandTuple) :
    ∀ (i : Nat) (mem : List Int), i + cmds.length ≤ mem.length →
      ∃ mem', assembleStep5 mult i mem cmds = Except.ok mem' := by
  induction cmds with
  | nil => exact fun i mem _ => ⟨mem, rfl⟩
  | cons c rest ih =>
    intro i mem h
    have hi : i < mem.length := by simp only [List.length_cons] at h; omega
    obtain ⟨mem', hm⟩ := ih (i + 1) (mem.set i (encodeCmd mult c))
      (by simp only [List.length_set, List.length_cons] at h ⊢; omega)
    exact ⟨mem', by unfold assembleStep5; rw [if_pos hi]; exact hm⟩

/-- **C4.** When compilation succeeds with `k` resolved records, the memory
image has exactly `cap` words; word `i < k` is the raw operand for a `DAT`
record and `numeric_opcode * 10^d + operand` with `d = ⌈log₁₀ cap⌉`
otherwise; every word at an index at or past `k` is 0. -/
theorem C4_encoding (cap : Nat) (asm : String) (cmds : List CommandTuple) (mem : List Int)
    (hr : compileRecords asm = Except.ok cmds)
    (hc : compile_assembly cap asm = Except.ok mem) :
    mem.length = cap ∧ cmds.length ≤ cap ∧
    (∀ (k : Nat) (hk : k < cmds.length),
      mem[k]? = some (if cmds[k].opcode = "DAT" then cmds[k].operand
        else (opcodeNum cmds[k].opcode).getD 0 * (10 : Int) ^ decLength cap
          + cmds[k].operand)) ∧
    (∀ k : Nat, cmds.length ≤ k → k < cap → mem[k]? = some 0) := by
  unfold compile_assembly at hc
  rw [hr] at hc
  replace hc : assembleStep5 ((10 : Int) ^ decLength cap) 0 (List.replicate cap 0) cmds =
      Except.ok mem := hc
  obtain ⟨hle, hlen, hframe, hval⟩ := assembleStep5_sound _ _ _ _ _ hc
  rw [List.length_replicate] at hle hlen
  refine ⟨hlen, by omega, fun k hk => ?_, fun k hk1 hk2 => ?_⟩
  · have hv := hval k hk
    rw [Nat.zero_add] at hv
    exact hv
  · rw [hframe k (Or.inr (by omega))]
    simp [hk2]

/-- Witness source for C4/C5-style concrete checks. -/
def twoLineSrc : String := "ADD 5\nDAT 7"

/-- Witness for C4 at `twoLineSrc` with capacity 10. -/
theorem C4_encoding_witness :
    ([15, 7, 0, 0, 0, 0, 0, 0, 0, 0] : List Int).length = 10 ∧
    ([(⟨"ADD", 5⟩ : CommandTuple), ⟨"DAT", 7⟩] : List CommandTuple).length ≤ 10 ∧
    (∀ (k : Nat)
      (hk : k < ([(⟨"ADD", 5⟩ : CommandTuple), ⟨"DAT", 7⟩] : List CommandTuple).length),
      ([15, 7, 0, 0, 0, 0, 0, 0, 0, 0] : List Int)[k]? =
        some (if ([(⟨"ADD", 5⟩ : CommandTuple), ⟨"DAT", 7⟩] : List CommandTuple)[k].opcode
            = "DAT"
          then ([(⟨"ADD", 5⟩ : CommandTuple), ⟨"DAT", 7⟩] : List CommandTuple)[k].operand
          else (opcodeNum
              ([(⟨"ADD", 5⟩ : CommandTuple), ⟨"DAT", 7⟩] : List CommandTuple)[k].opcode).getD 0
              * (10 : Int) ^ decLength 10
            + ([(⟨"ADD", 5⟩ : CommandTuple), ⟨"DAT", 7⟩] : List CommandTuple)[k].operand)) ∧
    (∀ k : Nat,
      ([(⟨"ADD", 5⟩ : CommandTuple), ⟨"DAT", 7⟩] : List CommandTuple).length ≤ k → k < 10 →
      ([15, 7, 0, 0, 0, 0, 0, 0, 0, 0] : List Int)[k]? = some 0) :=
  C4_encoding 10 twoLineSrc [⟨"ADD", 5⟩, ⟨"DAT", 7⟩] [15, 7, 0, 0, 0, 0, 0, 0, 0, 0]
    rfl rfl

/-- **C5.** Operand overflow is silent: whenever the records resolve and fit,
compilation succeeds with no diagnostic, and every non-`DAT` word is encoded
as `numeric_opcode * 10^d + operand` with no bound demanded of the operand —
an operand at or above the multiplier simply corrupts the opcode digits. -/
theorem C5_silent_overflow (cap : Nat) (asm : String) (cmds : List CommandTuple)
    (hr : compileRecords asm = Except.ok cmds) (hlen : cmds.length ≤ cap) :
    ∃ mem, compile_assembly cap asm = Except.ok mem ∧
      ∀ (k : Nat) (hk : k < cmds.length), cmds[k].opcode ≠ "DAT" →
        mem[k]? = some ((opcodeNum cmds[k].opcode).getD 0 * (10 : Int) ^ decLength cap
          + cmds[k].operand) := by
  obtain ⟨mem, hm⟩ := assembleStep5_total ((10 : Int) ^ decLength cap) cmds 0
    (List.replicate cap 0) (by simp only [List.length_replicate]; omega)
  refine ⟨mem, ?_, fun k hk hndat => ?_⟩
  · unfold compile_assembly
    rw [hr]
    exact hm
  · obtain ⟨hle, hl, hframe, hval⟩ := assembleStep5_sound _ _ _ _ _ hm
    have hv := hval k hk
    rw [Nat.zero_add] at hv
    rw [hv]
    unfold encodeCmd
    rw [if_neg hndat]

/-- Witness for C5: the operand 12345 of `ADD 12345` exceeds the multiplier
100 at capacity 100 and is still encoded without error, as
`1 * 100 + 12345 = 12445`. -/
theorem C5_silent_overflow_witness :
    ∃ mem, compile_assembly 100 "ADD 12345" = Except.ok mem ∧
      ∀ (k : Nat) (hk : k < ([(⟨"ADD", 12345⟩ : CommandTuple)] : List CommandTuple).length),
        ([(⟨"ADD", 12345⟩ : CommandTuple)] : List CommandTuple)[k].opcode ≠ "DAT" →
        mem[k]? = some
          ((opcodeNum ([(⟨"ADD", 12345⟩ : CommandTuple)] : List CommandTuple)[k].opcode).getD 0
              * (10 : Int) ^ decLength 100
            + ([(⟨"ADD", 12345⟩ : CommandTuple)] : List CommandTuple)[k].operand) :=
  C5_silent_overflow 100 "ADD 12345" [⟨"ADD", 12345⟩] rfl (by norm_num)

/-! ## Claims C6 and C7: label table construction and resolution -/

/-- Reduction of `compileRecords` once tokenisation is known. -/
theorem compileRecords_eq (asm : String) (lcmds : List LabelledCommandTuple)
    (ht : tokenise asm = Except.ok lcmds) :
    compileRecords asm =
      match buildLabels lcmds with
      | .error e => .error e
      | .ok tbl => resolveOps tbl lcmds := by
  unfold compileRecords
  rw [ht]

/-- A failing record pipeline fails the whole compilation with that error. -/
theorem compile_assembly_of_records_error (cap : Nat) (asm : String) (e : CompErr)
    (h : compileRecords asm = Except.error e) :
    compile_assembly cap asm = Except.error e := by
  unfold compile_assembly
  rw [h]

/-- The only `CompileError` the table-building loop raises is the duplicate
label one. -/
theorem buildLabelsGo_error (l : List LabelledCommandTuple) :
    ∀ (i : Nat) (acc : List (String × Nat)) (e : CompErr),
      buildLabelsGo i acc l = Except.error e → e = CompErr.duplicateLabel := by
  induction l with
  | nil =>
    intro i acc e h
    exact absurd h (by simp [buildLabelsGo])
  | cons c rest ih =>
    intro i acc e h
    unfold buildLabelsGo at h
    split_ifs at h with h1 h2
    · exact ih _ _ _ h
    · injection h with h
      exact h.symm
    · exact ih _ _ _ h

/-- A key present in a dict stays present under appending entries. -/
theorem dictLookup_append_some (acc ys : List (String × Nat)) (s : String) (n : Nat)
    (h : dictLookup acc s = some n) : dictLookup (acc ++ ys) s = some n := by
  induction acc with
  | nil => exact absurd h (by simp [dictLookup])
  | cons p rest ih =>
    obtain ⟨k, v⟩ := p
    by_cases hk : s = k
    · simpa [dictLookup, hk] using h
    · simp only [dictLookup, if_neg hk] at h
      simp only [List.cons_append, dictLookup, if_neg hk]
      exact ih h

/-- Appending a fresh key makes it found. -/
theorem dictLookup_append_self (acc : List (String × Nat)) (s : String) (v : Nat)
    (h : dictLookup acc s = none) : dictLookup (acc ++ [(s, v)]) s = some v := by
  induction acc with
  | nil => simp [dictLookup]
  | cons p rest ih =>
    obtain ⟨k, w⟩ := p
    by_cases hk : s = k
    · simp [dictLookup, hk] at h
    · simp only [dictLookup, if_neg hk] at h
      simp only [List.cons_append, dictLookup, if_neg hk]
      exact ih h

/-- Entries of the accumulator survive to the final table. -/
theorem buildLabelsGo_mono (l : List LabelledCommandTuple) :
    ∀ (i : Nat) (acc tbl : List (String × Nat)),
      buildLabelsGo i acc l = Except.ok tbl →
      ∀ (s : String) (n : Nat), dictLookup acc s = some n → dictLookup tbl s = some n := by
  induction l with
  | nil =>
    intro i acc tbl h s n hs
    injection h with h
    subst h
    exact hs
  | cons c rest ih =>
    intro i acc tbl h s n hs
    unfold buildLabelsGo at h
    split_ifs at h with h1 h2
    · exact ih _ _ _ h s n hs
    · exact ih _ _ _ h s n (dictLookup_append_some _ _ _ _ hs)

/-- The loop fails whenever a later record repeats a label that is already a
key of the accumulator. -/
theorem buildLabelsGo_dup_in_acc (c2 : LabelledCommandTuple)
    (post : List LabelledCommandTuple) (mid : List LabelledCommandTuple) :
    ∀ (i : Nat) (acc tbl : List (String × Nat)),
      c2.label ≠ "" → (dictLookup acc c2.label).isSome →
      buildLabelsGo i acc (mid ++ c2 :: post) = Except.ok tbl → False := by
  induction mid with
  | nil =>
    intro i acc tbl hne hsome h
    simp only [List.nil_append] at h
    simp only [buildLabelsGo] at h
    rw [if_neg hne, if_pos hsome] at h
    exact Except.noConfusion h
  | cons c mid' ih =>
    intro i acc tbl hne hsome h
    simp only [List.cons_append] at h
    unfold buildLabelsGo at h
    split_ifs at h with h1 h2
    · exact ih _ _ _ hne hsome h
    · refine ih _ _ _ hne ?_ h
      obtain ⟨n, hn⟩ := Option.isSome_iff_exists.mp hsome
      exact Option.isSome_iff_exists.mpr ⟨n, dictLookup_append_some _ _ _ _ hn⟩

/-- The loop fails on any list containing two records with the same
non-empty label. -/
theorem buildLabelsGo_dup (c1 c2 : LabelledCommandTuple)
    (mid post : List LabelledCommandTuple)
    (hlab : c1.label = c2.label) (hne : c1.label ≠ "")
    (pre : List LabelledCommandTuple) :
    ∀ (i : Nat) (acc tbl : List (String × Nat)),
      buildLabelsGo i acc (pre ++ c1 :: mid ++ c2 :: post) = Except.ok tbl → False := by
  induction pre with
  | nil =>
    intro i acc tbl h
    simp only [List.nil_append] at h
    simp only [buildLabelsGo] at h
    rw [if_neg hne] at h
    cases hs : dictLookup acc c1.label with
    | some n =>
      rw [hs] at h
      simp at h
    | none =>
      rw [hs] at h
      simp only [Option.isSome_none, Bool.false_eq_true, if_false] at h
      refine buildLabelsGo_dup_in_acc c2 post mid (i + 1) (acc ++ [(c1.label, i)]) tbl
        (hlab ▸ hne) ?_ h
      rw [← hlab, dictLookup_append_self acc c1.label i hs]
      rfl
  | cons c pre' ih =>
    intro i acc tbl h
    simp only [List.cons_append] at h
    unfold buildLabelsGo at h
    split_ifs at h with h1 h2
    · exact ih _ _ _ h
    · exact ih _ _ _ h

/-- **C6.** Two records carrying the same non-empty label — wherever the two
declarations sit in the source — make `compile_assembly` fail with the
duplicate-label `CompileError`; no memory image is returned. -/
theorem C6_duplicate_label (cap : Nat) (asm : String)
    (pre mid post : List LabelledCommandTuple) (c1 c2 : LabelledCommandTuple)
    (ht : tokenise asm = Except.ok (pre ++ c1 :: mid ++ c2 :: post))
    (hlab : c1.label = c2.label) (hne : c1.label ≠ "") :
    compile_assembly cap asm = Except.error CompErr.duplicateLabel := by
  apply compile_assembly_of_records_error
  rw [compileRecords_eq asm _ ht]
  cases hb : buildLabels (pre ++ c1 :: mid ++ c2 :: post) with
  | error e =>
    have he : e = CompErr.duplicateLabel := buildLabelsGo_error _ _ _ _ hb
    subst he
    rfl
  | ok tbl => exact absurd hb (fun hb => buildLabelsGo_dup c1 c2 mid post hlab hne pre 0 [] tbl hb)

/-- Appending an entry with a different key does not affect a lookup. -/
theorem dictLookup_append_ne (acc : List (String × Nat)) (k : String) (v : Nat)
    (s : String) (h : s ≠ k) : dictLookup (acc ++ [(k, v)]) s = dictLookup acc s := by
  induction acc with
  | nil => simp [dictLookup, h]
  | cons p rest ih =>
    obtain ⟨k', v'⟩ := p
    by_cases hk : s = k'
    · simp [dictLookup, hk]
    · simp only [List.cons_append, dictLookup, if_neg hk]
      exact ih

/-- Every key of the finished table is an accumulator key or the label of
some record. -/
theorem buildLabelsGo_keys (l : List LabelledCommandTuple) :
    ∀ (i : Nat) (acc tbl : List (String × Nat)),
      buildLabelsGo i acc l = Except.ok tbl →
      ∀ (s : String) (n : Nat), dictLookup tbl s = some n →
        (dictLookup acc s).isSome ∨ ∃ c ∈ l, c.label = s := by
  induction l with
  | nil =>
    intro i acc tbl h s n hs
    injection h with h
    subst h
    exact Or.inl (by rw [hs]; rfl)
  | cons c rest ih =>
    intro i acc tbl h s n hs
    simp only [buildLabelsGo] at h
    split_ifs at h with h1 h2
    · rcases ih _ _ _ h s n hs with ha | ⟨c', hc', hl⟩
      · exact Or.inl ha
      · exact Or.inr ⟨c', List.mem_cons_of_mem _ hc', hl⟩
    · rcases ih _ _ _ h s n hs with ha | ⟨c', hc', hl⟩
      · by_cases hsc : s = c.label
        · exact Or.inr ⟨c, List.mem_cons_self _ _, hsc.symm⟩
        · rw [dictLookup_append_ne acc c.label i s hsc] at ha
          exact Or.inl ha
      · exact Or.inr ⟨c', List.mem_cons_of_mem _ hc', hl⟩

/-- The only `CompileError` a single operand resolution raises is the
unknown-label one. -/
theorem resolveOp_error (tbl : List (String × Nat)) (c : LabelledCommandTuple)
    (e : CompErr) (h : resolveOp tbl c = Except.error e) : e = CompErr.unknownLabel := by
  unfold resolveOp at h
  split at h
  · split at h
    · exact Except.noConfusion h
    · injection h with h
      exact h.symm
  · exact Except.noConfusion h

/-- The only `CompileError` operand resolution raises is the unknown-label
one. -/
theorem resolveOps_error (tbl : List (String × Nat)) (l : List LabelledCommandTuple) :
    ∀ e, resolveOps tbl l = Except.error e → e = CompErr.unknownLabel := by
  induction l with
  | nil =>
    intro e h
    exact absurd h (by simp [resolveOps])
  | cons c0 rest ih =>
    intro e h
    simp only [resolveOps] at h
    cases hro : resolveOp tbl c0 <;> rw [hro] at h
    · injection h with h
      subst h
      exact resolveOp_error tbl c0 _ hro
    · cases hrr : resolveOps tbl rest <;> rw [hrr] at h
      · injection h with h
        subst h
        exact ih _ hrr
      · exact Except.noConfusion h

/-- If resolution of a record list succeeds, every label reference in it was
a key of the table. -/
theorem resolveOps_ok_isSome (tbl : List (String × Nat)) (l : List LabelledCommandTuple) :
    ∀ cmds, resolveOps tbl l = Except.ok cmds →
      ∀ c ∈ l, ∀ s, c.operand = Operand.str s → (dictLookup tbl s).isSome := by
  induction l with
  | nil =>
    intro cmds h c hc
    exact absurd hc (by simp)
  | cons c0 rest ih =>
    intro cmds h c hc s hop
    simp only [resolveOps] at h
    cases hro : resolveOp tbl c0 <;> rw [hro] at h
    · exact Except.noConfusion h
    · cases hrr : resolveOps tbl rest <;> rw [hrr] at h
      · exact Except.noConfusion h
      · rcases List.mem_cons.mp hc with rfl | hmem
        · unfold resolveOp at hro
          split at hro
          · rename_i s' hs'
            rw [hop] at hs'
            injection hs' with hs'
            subst hs'
            split at hro
            · rename_i n hn
              rw [hn]
              rfl
            · exact Except.noConfusion hro
          · rename_i n hn
            rw [hop] at hn
            exact Operand.noConfusion hn
        · exact ih _ hrr c hmem s hop

/-- The record at position `pre.length` with a non-empty label is mapped to
address `i + pre.length` by a successful table build. -/
theorem buildLabelsGo_at (c : LabelledCommandTuple) (post : List LabelledCommandTuple)
    (hne : c.label ≠ "") (pre : List LabelledCommandTuple) :
    ∀ (i : Nat) (acc tbl : List (String × Nat)),
      buildLabelsGo i acc (pre ++ c :: post) = Except.ok tbl →
      dictLookup tbl c.label = some (i + pre.length) := by
  induction pre with
  | nil =>
    intro i acc tbl h
    simp only [List.nil_append] at h
    simp only [buildLabelsGo] at h
    rw [if_neg hne] at h
    cases hs : dictLookup acc c.label with
    | some n =>
      rw [hs] at h
      simp at h
    | none =>
      rw [hs] at h
      simp only [Option.isSome_none, Bool.false_eq_true, if_false] at h
      have hm := buildLabelsGo_mono _ _ _ _ h c.label i
        (dictLookup_append_self acc c.label i hs)
      simpa using hm
  | cons c0 pre' ih =>
    intro i acc tbl h
    simp only [List.cons_append] at h
    simp only [buildLabelsGo] at h
    split_ifs at h with h1 h2
    · rw [ih _ _ _ h]
      congr 1
      simp only [List.length_cons]
      omega
    · rw [ih _ _ _ h]
      congr 1
      simp only [List.length_cons]
      omega

/-- Successful resolution rewrites record `j` by `resolveOp`, in place. -/
theorem resolveOps_get (tbl : List (String × Nat)) (l : List LabelledCommandTuple) :
    ∀ (cmds : List CommandTuple), resolveOps tbl l = Except.ok cmds →
      ∀ (j : Nat) (c : LabelledCommandTuple), l[j]? = some c →
        ∃ rc, resolveOp tbl c = Except.ok rc ∧ cmds[j]? = some rc := by
  induction l with
  | nil =>
    intro cmds h j c hj
    exact absurd hj (by simp)
  | cons c0 rest ih =>
    intro cmds h j c hj
    simp only [resolveOps] at h
    cases hro : resolveOp tbl c0 <;> rw [hro] at h
    · exact Except.noConfusion h
    · cases hrr : resolveOps tbl rest <;> rw [hrr] at h
      · exact Except.noConfusion h
      · rename_i rc rcs
        injection h with h
        subst h
        cases j with
        | zero =>
          simp only [List.getElem?_cons_zero, Option.some.injEq] at hj
          subst hj
          exact ⟨rc, hro, by simp⟩
        | succ j' =>
          simp only [List.getElem?_cons_succ] at hj
          obtain ⟨rc', hrc', hj'⟩ := ih _ hrr j' c hj
          exact ⟨rc', hrc', by simpa using hj'⟩

/-- **C7.** A label-reference operand (a non-numeric token) that is not the
label of any record makes compilation fail with a `CompileError` (the
duplicate-label error if one strikes first while building the table, the
unknown-label error otherwise); and a reference to a label declared on a
*later* record resolves — the whole table is built before any operand is
rewritten — to that record's address. -/
theorem C7_label_resolution (cap : Nat) (asm : String)
    (lcmds : List LabelledCommandTuple)
    (ht : tokenise asm = Except.ok lcmds) :
    (∀ c ∈ lcmds, ∀ s, c.operand = Operand.str s → (∀ c' ∈ lcmds, c'.label ≠ s) →
      compile_assembly cap asm = Except.error CompErr.duplicateLabel ∨
      compile_assembly cap asm = Except.error CompErr.unknownLabel) ∧
    (∀ (pre mid post : List LabelledCommandTuple) (ci cj : LabelledCommandTuple)
      (s : String),
      lcmds = pre ++ ci :: mid ++ cj :: post →
      ci.operand = Operand.str s → cj.label = s → s ≠ "" →
      ∀ tbl, buildLabels lcmds = Except.ok tbl →
        dictLookup tbl s = some (pre.length + 1 + mid.length) ∧
        ∀ cmds, resolveOps tbl lcmds = Except.ok cmds →
          cmds[pre.length]? =
            some ⟨ci.opcode, ((pre.length + 1 + mid.length : Nat) : Int)⟩) := by
  constructor
  · intro c hc s hop hun
    cases hb : buildLabels lcmds with
    | error e =>
      left
      have he : e = CompErr.duplicateLabel := buildLabelsGo_error _ _ _ _ hb
      subst he
      apply compile_assembly_of_records_error
      rw [compileRecords_eq asm _ ht, hb]
    | ok tbl =>
      right
      have hnone : dictLookup tbl s = none := by
        cases hd : dictLookup tbl s with
        | none => rfl
        | some n =>
          rcases buildLabelsGo_keys _ _ _ _ hb s n hd with ha | ⟨c', hc', hl⟩
          · simp [dictLookup] at ha
          · exact absurd hl (hun c' hc')
      cases hro : resolveOps tbl lcmds with
      | error e =>
        have he : e = CompErr.unknownLabel := resolveOps_error _ _ _ hro
        subst he
        apply compile_assembly_of_records_error
        rw [compileRecords_eq asm _ ht, hb]
        exact hro
      | ok cmds =>
        have := resolveOps_ok_isSome tbl lcmds cmds hro c hc s hop
        rw [hnone] at this
        exact absurd this (by simp)
  · intro pre mid post ci cj s hsplit hop hlab hsne tbl hb
    subst hsplit
    unfold buildLabels at hb
    have h1 := buildLabelsGo_at cj post (by rw [hlab]; exact hsne) (pre ++ ci :: mid)
      0 [] tbl hb
    rw [hlab] at h1
    have h1' : dictLookup tbl s = some (pre.length + 1 + mid.length) := by
      rw [h1]
      congr 1
      simp only [List.length_append, List.length_cons]
      omega
    refine ⟨h1', fun cmds hro => ?_⟩
    have hat : (pre ++ ci :: mid ++ cj :: post)[pre.length]? = some ci := by
      have hlt : pre.length < (pre ++ ci :: mid).length := by
        simp only [List.length_append, List.length_cons]
        omega
      rw [List.getElem?_append_left hlt,
        List.getElem?_append_right (Nat.le_refl pre.length)]
      simp
    obtain ⟨rc, hrc, hcm⟩ := resolveOps_get tbl _ cmds hro pre.length ci hat
    simp only [resolveOp, hop] at hrc
    rw [h1'] at hrc
    simp only [Except.ok.injEq] at hrc
    rw [hcm, ← hrc]

/-- Witness for C6: the label `x` declared on both lines of a two-line
program. -/
theorem C6_duplicate_label_witness :
    compile_assembly 100 "x ADD 1\nx SUB 2" = Except.error CompErr.duplicateLabel :=
  C6_duplicate_label 100 "x ADD 1\nx SUB 2" [] [] []
    ⟨"x", "ADD", Operand.num 1⟩ ⟨"x", "SUB", Operand.num 2⟩ rfl rfl (by decide)

/-- A three-line program with an undeclared reference `z` and a forward
reference `w`. -/
def labelDemoSrc : String := "ADD z\nLDA w\nw DAT"

/-- The tokenised records of `labelDemoSrc`. -/
def labelDemoRecords : List LabelledCommandTuple :=
  [⟨"", "ADD", .str "z"⟩, ⟨"", "LDA", .str "w"⟩, ⟨"w", "DAT", .num 0⟩]

/-- Witness for C7 at `labelDemoSrc`. -/
theorem C7_label_resolution_witness :
    (∀ c ∈ labelDemoRecords, ∀ s, c.operand = Operand.str s →
      (∀ c' ∈ labelDemoRecords, c'.label ≠ s) →
      compile_assembly 100 labelDemoSrc = Except.error CompErr.duplicateLabel ∨
      compile_assembly 100 labelDemoSrc = Except.error CompErr.unknownLabel) ∧
    (∀ (pre mid post : List LabelledCommandTuple) (ci cj : LabelledCommandTuple)
      (s : String),
      labelDemoRecords = pre ++ ci :: mid ++ cj :: post →
      ci.operand = Operand.str s → cj.label = s → s ≠ "" →
      ∀ tbl, buildLabels labelDemoRecords = Except.ok tbl →
        dictLookup tbl s = some (pre.length + 1 + mid.length) ∧
        ∀ cmds, resolveOps tbl labelDemoRecords = Except.ok cmds →
          cmds[pre.length]? =
            some ⟨ci.opcode, ((pre.length + 1 + mid.length : Nat) : Int)⟩) :=
  C7_label_resolution 100 labelDemoSrc labelDemoRecords rfl
